import Mathlib

/-!
Shallow embedding of the youtube-digest pipeline.

Sources modelled here:
* `src/scrapingdog.mjs` — transcript fetch with retry/backoff
  (`fetchTranscriptFromScrapingDog`, `isTransientHttp`, `backoffDelay`,
  `formatProviderError`, `safeErrMsg`, `decodeHtmlEntities`);
* `src/unnamed/part_000` (the OpenAI summarizer module) — `normalizeSummary`;
* `src/index.mjs` — the `run` pipeline core: per-group deduplication
  (`new Map` keyed by `videoId`), recency sort, the per-video
  fetch/summarize loop, display cap and group statistics.

Conventions: JavaScript strings are modelled as Lean `String` with
codepoint-based length; `str.slice(0, n)` is `jsSlice`; `str.trim()` is
`jsTrim`; the regex replacement `replace(/\s+/g, " ")` is `collapseWsKeep`
(no trim) and its trimmed composition is `collapseWs`.  JavaScript `Map`
insertion-order semantics are modelled by `mapSet` on lists.  Random jitter
and the sequence of upstream HTTP outcomes are oracles passed as functions
`Nat → _`, indexed by attempt number.
-/

/-- Whitespace class of the JavaScript `\s` regex class / `trim`, restricted
to the ASCII whitespace that can occur in the modelled data. -/
def isJsWs (c : Char) : Bool :=
  c = ' ' || c = '\t' || c = '\n' || c = '\r' || c = '\x0b' || c = '\x0c'

/-- One step of whitespace-run collapsing: state is (reversed output, "the
previous character was whitespace"). -/
def collapseStep (acc : List Char × Bool) (c : Char) : List Char × Bool :=
  if isJsWs c then
    (if acc.2 then acc.1 else ' ' :: acc.1, true)
  else
    (c :: acc.1, false)

/-- JavaScript `s.replace(/\s+/g, " ")`: every maximal whitespace run becomes
a single space; no trimming. -/
def collapseWsKeep (s : String) : String :=
  ⟨((s.data.foldl collapseStep ([], false)).1).reverse⟩

/-- Character-list trim: drop trailing whitespace, then leading whitespace. -/
def trimChars (l : List Char) : List Char :=
  ((l.reverse.dropWhile isJsWs).reverse).dropWhile isJsWs

/-- JavaScript `s.trim()`. -/
def jsTrim (s : String) : String := ⟨trimChars s.data⟩

/-- JavaScript `s.replace(/\s+/g, " ").trim()` as used on transcript text. -/
def collapseWs (s : String) : String := jsTrim (collapseWsKeep s)

/-- JavaScript `s.slice(0, n)` for `n ≥ 0`. -/
def jsSlice (s : String) (n : Nat) : String := ⟨s.data.take n⟩

/-- Substring test (used for the case-insensitive HTML sniffing regex in
`formatProviderError`): `pat` occurs in `s`. -/
def containsSub (s pat : String) : Bool := (s.splitOn pat).length ≠ 1

theorem length_jsSlice (s : String) (n : Nat) : (jsSlice s n).length = min n s.length := by
  cases s with
  | mk d => simp [jsSlice, String.length]

theorem jsSlice_ne_empty (s : String) (n : Nat) (hs : s ≠ "") (hn : 0 < n) :
    jsSlice s n ≠ "" := by
  intro h
  apply hs
  have hd : (jsSlice s n).data = [] := by
    rw [h]
  simp only [jsSlice, List.take_eq_nil_iff] at hd
  rcases hd with hd | hd
  · omega
  · cases s with
    | mk data => cases hd; rfl

theorem dropWhile_of_head_not {p : α → Bool} :
    ∀ l : List α, (∀ c, l.head? = some c → p c = false) → List.dropWhile p l = l := by
  intro l h
  cases l with
  | nil => rfl
  | cons a t =>
    have := h a rfl
    simp [List.dropWhile, this]

/-- Heads of `dropWhile` never satisfy the predicate (Option form). -/
theorem head?_dropWhile {p : α → Bool} (l : List α) :
    ∀ c, (List.dropWhile p l).head? = some c → p c = false := by
  intro c hc
  have hne : List.dropWhile p l ≠ [] := by
    intro h; rw [h] at hc; cases hc
  have h2 := List.head_dropWhile_not p l hne
  rw [List.head?_eq_head hne, Option.some_inj] at hc
  exact hc ▸ h2

/-! ## JavaScript values (for the summarizer's defensive normalization)

`src/unnamed/part_000` (`normalizeSummary`) receives an arbitrary parsed
JSON value.  `JSVal.null` stands for both JavaScript `null` and `undefined`
(the code treats them identically on every path it takes: both are falsy,
neither is an array, and `String()` renders both as a non-empty word). -/

inductive JSVal where
  | null : JSVal
  | str (s : String) : JSVal
  | num (n : Int) : JSVal
  | bool (b : Bool) : JSVal
  | arr (elems : List JSVal) : JSVal
  | obj (fields : List (String × JSVal)) : JSVal
deriving Repr

/-- JavaScript truthiness of a value (numbers modelled as integers). -/
def jsTruthy : JSVal → Bool
  | .null => false
  | .str s => s ≠ ""
  | .num n => n ≠ 0
  | .bool b => b
  | .arr _ => true
  | .obj _ => true

/-- JavaScript `String(x)` conversion.  Inside an array join (`inArr = true`)
`null`/`undefined` render as the empty string; at top level they render as
the word `"null"`. -/
def jsToStr (inArr : Bool) : JSVal → String
  | .null => if inArr then "" else "null"
  | .str s => s
  | .num n => toString n
  | .bool b => if b then "true" else "false"
  | .arr elems => String.intercalate "," (elems.attach.map (fun x => jsToStr true x.1))
  | .obj _ => "[object Object]"
decreasing_by
  have := List.sizeOf_lt_of_mem x.2
  simp only [JSVal.arr.sizeOf_spec] at *
  omega

/-- Property access `v?.k`: `JSVal.null` models the `undefined` result on
non-objects and missing keys. -/
def jsGet (v : JSVal) (k : String) : JSVal :=
  match v with
  | .obj fields =>
    match fields.find? (fun f => f.1 = k) with
    | some f => f.2
    | none => .null
  | _ => .null

/-- The structured summary shape produced by the summarizer module. -/
structure Summary where
  one_liner : String
  key_points : List String
  who_should_watch : String
deriving Repr, DecidableEq

/-- `String(x || "")` as used on `one_liner` / `who_should_watch`. -/
def coerceOrEmpty (x : JSVal) : String :=
  if jsTruthy x then jsToStr false x else ""

/-- `normalizeSummary(obj, maxBullets)` from the summarizer module
(`src/unnamed/part_000`, lines 161-175), field for field. -/
def normalizeSummary (obj : JSVal) (maxBullets : Nat) : Summary :=
  let one_liner := jsTrim (coerceOrEmpty (jsGet obj "one_liner"))
  let key_points := match jsGet obj "key_points" with
    | .arr elems => elems
    | _ => []
  let who_should_watch := jsTrim (coerceOrEmpty (jsGet obj "who_should_watch"))
  { one_liner :=
      jsSlice (if one_liner = "" then "Summary unavailable." else one_liner) 220
    key_points :=
      ((key_points.map (fun x => jsTrim (jsToStr false x))).filter
        (fun s => s ≠ "")).take maxBullets
    who_should_watch :=
      jsSlice
        (if who_should_watch = "" then "Anyone who wants a neutral overview."
         else who_should_watch) 180 }

theorem trimChars_head (l : List Char) :
    ∀ c, (trimChars l).head? = some c → isJsWs c = false := by
  intro c hc
  exact head?_dropWhile _ c hc

theorem trimChars_getLast (l : List Char) :
    ∀ c, (trimChars l).getLast? = some c → isJsWs c = false := by
  intro c hc
  unfold trimChars at hc
  rcases @List.dropWhile_suffix Char ((l.reverse.dropWhile isJsWs).reverse) isJsWs with ⟨t, ht⟩
  have hne : List.dropWhile isJsWs (l.reverse.dropWhile isJsWs).reverse ≠ [] := by
    intro h; rw [h] at hc; cases hc
  have hlast :
      ((l.reverse.dropWhile isJsWs).reverse).getLast? = some c := by
    rw [← ht, List.getLast?_append_of_ne_nil t hne]; exact hc
  rw [List.getLast?_reverse] at hlast
  exact head?_dropWhile _ c hlast

theorem jsTrim_of_noEdge (s : String)
    (h1 : ∀ c, s.data.head? = some c → isJsWs c = false)
    (h2 : ∀ c, s.data.getLast? = some c → isJsWs c = false) :
    jsTrim s = s := by
  cases s with
  | mk l =>
    show String.mk (trimChars l) = ⟨l⟩
    unfold trimChars
    have hrev : List.dropWhile isJsWs l.reverse = l.reverse := by
      apply dropWhile_of_head_not
      intro c hc
      rw [List.head?_reverse] at hc
      exact h2 c hc
    rw [hrev, List.reverse_reverse, dropWhile_of_head_not l h1]

theorem jsTrim_idem (s : String) : jsTrim (jsTrim s) = jsTrim s := by
  apply jsTrim_of_noEdge
  · exact trimChars_head s.data
  · exact trimChars_getLast s.data

/-- **C2.** For every input value (including `null`, objects with missing
fields, and a non-array `key_points` field) and every `maxBullets` bound,
`normalizeSummary` returns (without raising — the embedding is a total
function by construction) a `Summary` whose `one_liner` is a non-empty
string of at most 220 characters, whose `key_points` has at most
`maxBullets` entries, each a non-empty trimmed string, and whose
`who_should_watch` is a non-empty string of at most 180 characters, using
the fallback texts `"Summary unavailable."` and
`"Anyone who wants a neutral overview."` when the corresponding input field
is empty or absent. -/
theorem normalizeSummary_total_safe (obj : JSVal) (maxBullets : Nat) :
    (normalizeSummary obj maxBullets).one_liner ≠ "" ∧
    (normalizeSummary obj maxBullets).one_liner.length ≤ 220 ∧
    (normalizeSummary obj maxBullets).key_points.length ≤ maxBullets ∧
    (∀ p ∈ (normalizeSummary obj maxBullets).key_points, p ≠ "" ∧ jsTrim p = p) ∧
    (normalizeSummary obj maxBullets).who_should_watch ≠ "" ∧
    (normalizeSummary obj maxBullets).who_should_watch.length ≤ 180 ∧
    (jsTrim (coerceOrEmpty (jsGet obj "one_liner")) = "" →
      (normalizeSummary obj maxBullets).one_liner = "Summary unavailable.") ∧
    (jsTrim (coerceOrEmpty (jsGet obj "who_should_watch")) = "" →
      (normalizeSummary obj maxBullets).who_should_watch =
        "Anyone who wants a neutral overview.") := by
  have hol : (normalizeSummary obj maxBullets).one_liner
      = jsSlice (if jsTrim (coerceOrEmpty (jsGet obj "one_liner")) = ""
                 then "Summary unavailable."
                 else jsTrim (coerceOrEmpty (jsGet obj "one_liner"))) 220 := rfl
  have hkp : (normalizeSummary obj maxBullets).key_points
      = (((match jsGet obj "key_points" with
           | .arr elems => elems
           | _ => []).map (fun x => jsTrim (jsToStr false x))).filter
          (fun s => s ≠ "")).take maxBullets := rfl
  have hwho : (normalizeSummary obj maxBullets).who_should_watch
      = jsSlice (if jsTrim (coerceOrEmpty (jsGet obj "who_should_watch")) = ""
                 then "Anyone who wants a neutral overview."
                 else jsTrim (coerceOrEmpty (jsGet obj "who_should_watch"))) 180 := rfl
  refine ⟨?_, ?_, ?_, ?_, ?_, ?_, ?_, ?_⟩
  · rw [hol]
    by_cases h : jsTrim (coerceOrEmpty (jsGet obj "one_liner")) = ""
    · rw [if_pos h]; decide
    · rw [if_neg h]; exact jsSlice_ne_empty _ 220 h (by norm_num)
  · rw [hol, length_jsSlice]; exact Nat.min_le_left _ _
  · rw [hkp, List.length_take]
    exact min_le_left _ _
  · intro p hp
    rw [hkp] at hp
    have hf := List.mem_of_mem_take hp
    rw [List.mem_filter] at hf
    obtain ⟨hmem, hne⟩ := hf
    constructor
    · simpa using hne
    · rw [List.mem_map] at hmem
      obtain ⟨a, _, ha⟩ := hmem
      rw [← ha]; exact jsTrim_idem _
  · rw [hwho]
    by_cases h : jsTrim (coerceOrEmpty (jsGet obj "who_should_watch")) = ""
    · rw [if_pos h]; decide
    · rw [if_neg h]; exact jsSlice_ne_empty _ 180 h (by norm_num)
  · rw [hwho, length_jsSlice]; exact Nat.min_le_left _ _
  · intro h
    rw [hol, if_pos h]; decide
  · intro h
    rw [hwho, if_pos h]; decide

/-- Witness for C2 at the concrete input `null` (with `maxBullets = 5`): both
fallback texts are substituted and the result is well-formed. -/
theorem normalizeSummary_total_safe_witness :
    (normalizeSummary JSVal.null 5).one_liner = "Summary unavailable." ∧
    (normalizeSummary JSVal.null 5).who_should_watch =
      "Anyone who wants a neutral overview." ∧
    (normalizeSummary JSVal.null 5).one_liner ≠ "" := by
  have h := normalizeSummary_total_safe JSVal.null 5
  exact ⟨h.2.2.2.2.2.2.1 (by decide), h.2.2.2.2.2.2.2 (by decide), h.1⟩

/-! ## Transcript fetcher (`src/scrapingdog.mjs`)

The upstream HTTP world is an oracle `outcomes : Nat → AttemptOutcome`
giving, for each attempt number (1-based), what that attempt's `fetch`
produced.  `Math.random()` jitter is an oracle `jitter : Nat → Nat` giving
the value of `Math.floor(Math.random() * 250)` drawn before attempt
`n + 1`.  The function result carries, besides the returned value, the list
of backoff delays actually slept (in order), so sleeping behaviour is part
of the observable result. -/

/-- One element of the provider's `transcripts` array: either a bare string
(the provider's "no transcript" idiom) or a segment object.  A segment's
missing/empty `text` and `lang` fields are both modelled by `""` (the code
collapses them with `|| ""` / `|| null`). -/
inductive TItem where
  | str (s : String) : TItem
  | obj (text : String) (lang : String) : TItem
deriving Repr, DecidableEq

/-- A parsed JSON body: either the `transcripts` field is absent / not an
array, or it is an array of items. -/
inductive JsonBody where
  | noField : JsonBody
  | transcripts (items : List TItem) : JsonBody
deriving Repr, DecidableEq

/-- What one HTTP attempt produced, as seen by the `try` block. -/
inductive AttemptOutcome where
  /-- `res.ok` false, with status and the (already truncated) body text. -/
  | httpErr (status : Nat) (bodyText : String) : AttemptOutcome
  /-- `res.ok` true but `res.json()` failed (`safeReadJson` → `null`). -/
  | okBadJson : AttemptOutcome
  /-- `res.ok` true and the body parsed. -/
  | ok (body : JsonBody) : AttemptOutcome
  /-- `fetch` itself threw; payload is the error message. -/
  | netErr (msg : String) : AttemptOutcome

/-- The fetcher's value-level result: `{ok: true, text, segments, lang}` or
`{ok: false, reason}`.  `lang = none` models JavaScript `null`. -/
inductive FetchResult where
  | success (text : String) (segments : Nat) (lang : Option String) : FetchResult
  | failure (reason : String) : FetchResult
deriving Repr, DecidableEq

/-- `isTransientHttp` (src/scrapingdog.mjs line 108). -/
def isTransientHttp (status : Nat) : Bool :=
  status = 429 || status = 500 || status = 502 || status = 503 || status = 504

/-- `backoffDelay` (src/scrapingdog.mjs lines 112-117): exponential backoff
capped at 8000 ms, plus the jitter value drawn for this call. -/
def backoffDelay (baseMs attempt jitterVal : Nat) : Nat :=
  min (baseMs * 2 ^ (attempt - 1)) 8000 + jitterVal

/-- The HTML sniff of `formatProviderError`: case-insensitive test for
`<!doctype html>` or `<html`. -/
def looksHtml (bodyText : String) : Bool :=
  containsSub bodyText.toLower "<!doctype html>" || containsSub bodyText.toLower "<html"

/-- `formatProviderError` (src/scrapingdog.mjs lines 141-147). -/
def formatProviderError (provider : String) (status : Nat) (bodyText : String) : String :=
  if looksHtml bodyText then provider ++ "_http_" ++ toString status
  else if bodyText = "" then provider ++ "_http_" ++ toString status
  else provider ++ "_http_" ++ toString status ++ ":"
       ++ jsSlice (collapseWsKeep bodyText) 120

/-- `safeErrMsg` (src/scrapingdog.mjs lines 149-152), applied to the thrown
error's message. -/
def safeErrMsg (msg : String) : String := jsSlice (collapseWsKeep msg) 200

/-- Left-to-right, non-overlapping replacement of `pat` by `rep`, the
semantics of JavaScript `String.prototype.replaceAll` for string patterns.
The fuel argument (instantiated with the input length) makes the
definition structurally recursive; every call here uses a non-empty
pattern, for which the fuel is never exhausted before the input is. -/
def replaceAllAux (pat rep : List Char) : Nat → List Char → List Char
  | 0, l => l
  | _ + 1, [] => []
  | fuel + 1, c :: rest =>
    if pat.isPrefixOf (c :: rest) then
      rep ++ replaceAllAux pat rep fuel ((c :: rest).drop pat.length)
    else c :: replaceAllAux pat rep fuel rest

/-- JavaScript `s.replaceAll(pat, rep)`. -/
def jsReplaceAll (s pat rep : String) : String :=
  ⟨replaceAllAux pat.data rep.data s.data.length s.data⟩

/-- `decodeHtmlEntities` (src/scrapingdog.mjs lines 156-167).  The source
chains `replaceAll` for six entities (`&gt;` listed twice; the second pass
is the identity) and then collapses/trims whitespace. -/
def decodeHtmlEntities (input : String) : String :=
  collapseWs
    (jsReplaceAll (jsReplaceAll (jsReplaceAll (jsReplaceAll (jsReplaceAll
      (jsReplaceAll input "&amp;" "&") "&#39;" "'") "&quot;" "\"")
      "&lt;" "<") "&gt;" ">") "&nbsp;" " ")

/-- `seg?.text || ""` for one `transcripts` element. -/
def segText : TItem → String
  | .str _ => ""
  | .obj text _ => text

/-- The `fullText` pipeline (src/scrapingdog.mjs lines 77-83): map to
`seg?.text || ""`, `filter(Boolean)`, `join(" ")`, collapse whitespace and
trim. -/
def fullTextOf (items : List TItem) : String :=
  collapseWs (String.intercalate " " ((items.map segText).filter (fun s => s ≠ "")))

/-- `transcripts[0]?.lang || null`. -/
def firstLang : List TItem → Option String
  | [] => none
  | .str _ :: _ => none
  | .obj _ lang :: _ => if lang = "" then none else some lang

/-- `typeof x === "string"` for an optional `transcripts` element. -/
def isStrItem : Option TItem → Bool
  | some (.str _) => true
  | _ => false

/-- The body of the `res.ok` / parsed-JSON branch (src/scrapingdog.mjs
lines 60-98): classify the `transcripts` value and build the result. -/
def handleParsedBody : JsonBody → FetchResult
  | .noField => .failure "no_transcript"
  | .transcripts items =>
    if items.length = 0 then .failure "no_transcript"
    else if items.length = 1 && isStrItem items.head? then
      .failure "no_transcript"
    else
      match items.head? with
      | some (.str _) => .failure "no_transcript"
      | none => .failure "no_transcript"
      | some (.obj _ _) =>
        let fullText := fullTextOf items
        if fullText = "" ∨ fullText.length < 200 then .failure "too_short"
        else .success (decodeHtmlEntities fullText) items.length (firstLang items)

/-- The attempt loop of `fetchTranscriptFromScrapingDog` (src/scrapingdog.mjs
lines 23-106), with the unreachable post-loop value as an explicit
`fallback` parameter.  `fuel` counts the remaining loop iterations
(`maxAttempts + 1 - attempt` on every reachable call); `fuel = 0` is the
loop's exit, i.e. the code after the loop.  The second component collects
the delays passed to `sleep`, in order. -/
def fetchGoAux (fallback : FetchResult × List Nat) (outcomes : Nat → AttemptOutcome)
    (jitter : Nat → Nat) (maxAttempts baseDelayMs : Nat) :
    Nat → Nat → FetchResult × List Nat
  | 0, _ => fallback
  | fuel + 1, attempt =>
    match outcomes attempt with
    | .httpErr status bodyText =>
      if isTransientHttp status ∧ attempt < maxAttempts then
        let rest := fetchGoAux fallback outcomes jitter maxAttempts baseDelayMs fuel (attempt + 1)
        (rest.1, backoffDelay baseDelayMs attempt (jitter attempt) :: rest.2)
      else
        (.failure (formatProviderError "scrapingdog" status bodyText), [])
    | .okBadJson =>
      if attempt < maxAttempts then
        let rest := fetchGoAux fallback outcomes jitter maxAttempts baseDelayMs fuel (attempt + 1)
        (rest.1, backoffDelay baseDelayMs attempt (jitter attempt) :: rest.2)
      else
        (.failure "scrapingdog_invalid_json", [])
    | .ok body => (handleParsedBody body, [])
    | .netErr msg =>
      if attempt < maxAttempts then
        let rest := fetchGoAux fallback outcomes jitter maxAttempts baseDelayMs fuel (attempt + 1)
        (rest.1, backoffDelay baseDelayMs attempt (jitter attempt) :: rest.2)
      else
        (.failure ("scrapingdog_fetch_error:" ++ safeErrMsg msg), [])

/-- The attempt loop with the source's actual post-loop value
(`{ok: false, reason: "scrapingdog_unknown_error"}`). -/
def fetchGo (outcomes : Nat → AttemptOutcome) (jitter : Nat → Nat)
    (maxAttempts baseDelayMs : Nat) : Nat → Nat → FetchResult × List Nat :=
  fetchGoAux (.failure "scrapingdog_unknown_error", []) outcomes jitter maxAttempts baseDelayMs

/-- `fetchTranscriptFromScrapingDog` (src/scrapingdog.mjs lines 12-106).
`apiKey` models `process.env.SCRAPINGDOG_API_KEY` (`none` = unset; the
empty string is falsy in JavaScript, so both abort).  `Except.error` models
a thrown exception; every non-throwing run yields the result value and the
list of slept backoff delays. -/
def fetchTranscriptFromScrapingDog (apiKey : Option String)
    (outcomes : Nat → AttemptOutcome) (jitter : Nat → Nat)
    (maxAttempts baseDelayMs : Nat) : Except String (FetchResult × List Nat) :=
  match apiKey with
  | none => .error "Missing SCRAPINGDOG_API_KEY"
  | some k =>
    if k = "" then .error "Missing SCRAPINGDOG_API_KEY"
    else .ok (fetchGo outcomes jitter maxAttempts baseDelayMs maxAttempts 1)

/-! ## Digest pipeline core (`src/index.mjs`)

The per-group `run` body: collected per-channel records are deduplicated
through a JavaScript `Map` keyed by `videoId` (insertion-ordered, value
overwrite keeps the key's original position), sorted most-recent-first with
the comparator `(a, b) => a.publishedAt < b.publishedAt ? 1 : -1`, pushed
through the transcript fetch / summarize loop, merged, re-sorted, capped,
and counted.  The transcript fetcher and the summarization collaborator are
abstracted as function parameters, exactly as the spec treats them. -/

structure VideoRecord where
  videoId : String
  title : String
  url : String
  publishedAt : String
  channelName : String
deriving Repr, DecidableEq

/-- `dedup.set(v.videoId, v)` on an insertion-ordered map represented as a
list of records: overwriting an existing key keeps its position, a new key
is appended. -/
def mapSet (m : List VideoRecord) (v : VideoRecord) : List VideoRecord :=
  if m.any (fun w => w.videoId = v.videoId) then
    m.map (fun w => if w.videoId = v.videoId then v else w)
  else m ++ [v]

/-- The dedup loop of `run` (src/index.mjs lines 136-137):
`for (const v of allVideos) dedup.set(v.videoId, v)` followed by
`Array.from(dedup.values())`. -/
def dedupByVideoId (l : List VideoRecord) : List VideoRecord := l.foldl mapSet []

/-- The sort comparator `(a, b) => a.publishedAt < b.publishedAt ? 1 : -1`
induces "x may stay before y" exactly when the comparator is negative,
i.e. when `¬ x.publishedAt < y.publishedAt`. -/
def recencyLe (x y : String) : Bool := decide (y ≤ x)

/-- `Array.prototype.sort` (stable) under the recency comparator, on video
records (src/index.mjs lines 138-140). -/
def sortByRecency (l : List VideoRecord) : List VideoRecord :=
  l.mergeSort (fun x y => recencyLe x.publishedAt y.publishedAt)

/-- A display item of the digest: a record plus either a summary
(`status = "summarized"`) or a user-facing reason (`status = "skipped"`),
matching the object literals built in `run` (src/index.mjs lines 176-196). -/
structure DisplayItem where
  status : String
  videoId : String
  title : String
  channelName : String
  url : String
  publishedAt : String
  summary : Option Summary
  reason : Option String
deriving Repr, DecidableEq

def summarizedItem (v : VideoRecord) (s : Summary) : DisplayItem :=
  { status := "summarized", videoId := v.videoId, title := v.title
    channelName := v.channelName, url := v.url, publishedAt := v.publishedAt
    summary := some s, reason := none }

def skippedItem (v : VideoRecord) (reasonText : String) : DisplayItem :=
  { status := "skipped", videoId := v.videoId, title := v.title
    channelName := v.channelName, url := v.url, publishedAt := v.publishedAt
    summary := none, reason := some reasonText }

/-- The user-facing skip reason chosen in `run` (src/index.mjs
lines 152-156). -/
def skipReasonText (reason : String) : String :=
  if reason = "no_transcript" then
    "This video has no transcript/captions available on YouTube."
  else "Transcript unavailable or too short."

/-- The per-video loop of `run` (src/index.mjs lines 145-174): for each
considered video, fetch a transcript; failures append to the skipped list,
successes are summarized and appended to the summarized list.  Returns
(summarizedItems, skippedItems) in iteration order. -/
def processVideos (fetch : String → FetchResult)
    (summarize : VideoRecord → String → Summary) :
    List VideoRecord → List DisplayItem × List DisplayItem
  | [] => ([], [])
  | v :: rest =>
    match fetch v.videoId with
    | .failure reason =>
      let acc := processVideos fetch summarize rest
      (acc.1, skippedItem v (skipReasonText reason) :: acc.2)
    | .success text _ _ =>
      let acc := processVideos fetch summarize rest
      (summarizedItem v (summarize v text) :: acc.1, acc.2)

/-- `Array.prototype.sort` under the recency comparator, on display items
(src/index.mjs line 196). -/
def sortItemsByRecency (l : List DisplayItem) : List DisplayItem :=
  l.mergeSort (fun x y => recencyLe x.publishedAt y.publishedAt)

/-- One group's digest as pushed onto `sectionsOut` (src/index.mjs
lines 200-208). -/
structure GroupDigest where
  label : String
  totalNew : Nat
  summarizedCount : Nat
  skippedCount : Nat
  notShownCount : Nat
  items : List DisplayItem
deriving Repr

/-- The assembler tail of `run` for one group (src/index.mjs lines 142-208):
`videos` is the considered set (deduplicated, age-filtered, sorted).
`notShownCount` is `Math.max(0, combined.length - displayed.length)`, which
on `Nat` is truncated subtraction. -/
def buildGroupDigest (label : String) (cap : Nat) (videos : List VideoRecord)
    (fetch : String → FetchResult)
    (summarize : VideoRecord → String → Summary) : GroupDigest :=
  let acc := processVideos fetch summarize videos
  let combined := sortItemsByRecency (acc.1 ++ acc.2)
  let displayed := combined.take cap
  { label := label
    totalNew := videos.length
    summarizedCount := acc.1.length
    skippedCount := acc.2.length
    notShownCount := combined.length - displayed.length
    items := displayed }

/-- `getCapPerSection` (src/index.mjs lines 7-11), with the two environment
cap values as parameters (defaults 15 weekly / 7 daily). -/
def getCapPerSection (freq : String) (capWeekly capDaily : Nat) : Nat :=
  if freq.toLower = "weekly" then capWeekly else capDaily

/-- **C1.** For every video identifier's upstream behaviour (any sequence of
non-2xx statuses, unparseable bodies, network exceptions, sentinel or
well-formed payloads) and any retry configuration,
`fetchTranscriptFromScrapingDog` never raises to its caller — it throws
(`Except.error`) exactly when the `SCRAPINGDOG_API_KEY` configuration value
is missing (unset or empty), and in every other case returns a plain value
of the `FetchResult` shape (`{ok: true, text, segments, lang}` or
`{ok: false, reason}`). -/
theorem fetchTranscript_raises_iff_missing_key (apiKey : Option String)
    (o : Nat → AttemptOutcome) (j : Nat → Nat) (m b : Nat) :
    ((apiKey = none ∨ apiKey = some "") →
      fetchTranscriptFromScrapingDog apiKey o j m b =
        .error "Missing SCRAPINGDOG_API_KEY") ∧
    (∀ e, fetchTranscriptFromScrapingDog apiKey o j m b = .error e →
      e = "Missing SCRAPINGDOG_API_KEY" ∧ (apiKey = none ∨ apiKey = some "")) ∧
    (apiKey ≠ none → apiKey ≠ some "" →
      ∃ r ds, fetchTranscriptFromScrapingDog apiKey o j m b = .ok (r, ds)) := by
  cases apiKey with
  | none =>
    refine ⟨fun _ => rfl, ?_, ?_⟩
    · intro e he
      cases he
      exact ⟨rfl, Or.inl rfl⟩
    · intro h _; exact absurd rfl h
  | some k =>
    by_cases hk : k = ""
    · subst hk
      refine ⟨fun _ => rfl, ?_, ?_⟩
      · intro e he
        cases he
        exact ⟨rfl, Or.inr rfl⟩
      · intro _ h; exact absurd rfl h
    · have hok : fetchTranscriptFromScrapingDog (some k) o j m b =
          .ok (fetchGo o j m b m 1) := by
        simp only [fetchTranscriptFromScrapingDog]
        rw [if_neg hk]
      refine ⟨?_, ?_, ?_⟩
      · rintro (h | h)
        · cases h
        · rw [Option.some_inj] at h; exact absurd h hk
      · intro e he
        rw [hok] at he
        cases he
      · intro _ _
        exact ⟨(fetchGo o j m b m 1).1, (fetchGo o j m b m 1).2, by rw [hok]⟩

/-- Witness for C1: with the key unset the call throws; with a non-empty key
and an upstream that always returns unparseable JSON it returns a value. -/
theorem fetchTranscript_raises_iff_missing_key_witness :
    fetchTranscriptFromScrapingDog none (fun _ => .okBadJson) (fun _ => 0) 3 800 =
      .error "Missing SCRAPINGDOG_API_KEY" ∧
    ∃ r ds,
      fetchTranscriptFromScrapingDog (some "k") (fun _ => .okBadJson) (fun _ => 0) 3 800 =
        .ok (r, ds) := by
  have h1 := fetchTranscript_raises_iff_missing_key none
    (fun _ => .okBadJson) (fun _ => 0) 3 800
  have h2 := fetchTranscript_raises_iff_missing_key (some "k")
    (fun _ => .okBadJson) (fun _ => 0) 3 800
  exact ⟨h1.1 (Or.inl rfl), h2.2.2 (by decide) (by decide)⟩

theorem processVideos_length (fetch : String → FetchResult)
    (summarize : VideoRecord → String → Summary) :
    ∀ l : List VideoRecord,
      (processVideos fetch summarize l).1.length
        + (processVideos fetch summarize l).2.length = l.length := by
  intro l
  induction l with
  | nil => rfl
  | cons v rest ih =>
    unfold processVideos
    cases h : fetch v.videoId with
    | failure reason => simp only [List.length_cons]; omega
    | success text segs lang => simp only [List.length_cons]; omega

/-- **C3.** For every group, every transcript-fetch behaviour, every
summarizer and every display cap, the digest's `summarizedCount` plus
`skippedCount` equals the size of the considered set — the deduplicated
(recency-sorted) collection of the group's age-filtered videos — so each
considered video lands in exactly one of the two counts. -/
theorem digest_counts_partition (label : String) (cap : Nat)
    (collected : List VideoRecord) (fetch : String → FetchResult)
    (summarize : VideoRecord → String → Summary) :
    (buildGroupDigest label cap (sortByRecency (dedupByVideoId collected))
        fetch summarize).summarizedCount
      + (buildGroupDigest label cap (sortByRecency (dedupByVideoId collected))
          fetch summarize).skippedCount
      = (sortByRecency (dedupByVideoId collected)).length := by
  exact processVideos_length fetch summarize _

/-- **C4.** For every group input and every configured cap, the displayed
item sequence has length at most the cap, and `notShownCount` equals
`max(0, consideredCount − displayedCount)`. -/
theorem digest_cap_invariant (label : String) (cap : Nat)
    (videos : List VideoRecord) (fetch : String → FetchResult)
    (summarize : VideoRecord → String → Summary) :
    (buildGroupDigest label cap videos fetch summarize).items.length ≤ cap ∧
    ((buildGroupDigest label cap videos fetch summarize).notShownCount : Int) =
      max 0 ((videos.length : Int) -
        ((buildGroupDigest label cap videos fetch summarize).items.length : Int)) := by
  have hcomb :
      (sortItemsByRecency ((processVideos fetch summarize videos).1
        ++ (processVideos fetch summarize videos).2)).length = videos.length := by
    have hp : (sortItemsByRecency ((processVideos fetch summarize videos).1
        ++ (processVideos fetch summarize videos).2)).Perm
          ((processVideos fetch summarize videos).1
            ++ (processVideos fetch summarize videos).2) :=
      List.mergeSort_perm _ _
    rw [hp.length_eq, List.length_append]
    exact processVideos_length fetch summarize videos
  have hitems : (buildGroupDigest label cap videos fetch summarize).items.length
      = min cap (sortItemsByRecency ((processVideos fetch summarize videos).1
          ++ (processVideos fetch summarize videos).2)).length := by
    show (List.take cap _).length = _
    rw [List.length_take]
  have hns : (buildGroupDigest label cap videos fetch summarize).notShownCount
      = (sortItemsByRecency ((processVideos fetch summarize videos).1
          ++ (processVideos fetch summarize videos).2)).length
        - (buildGroupDigest label cap videos fetch summarize).items.length := rfl
  constructor
  · rw [hitems]; exact min_le_left _ _
  · rw [hns, hitems, hcomb]
    omega

/-- Witness for C4 (and a concrete evaluation of the assembler): an empty
considered set under cap 7 displays nothing and hides nothing. -/
theorem digest_cap_invariant_witness :
    (buildGroupDigest "General News" 7 []
        (fun _ => .failure "no_transcript")
        (fun _ _ => ⟨"s", [], "w"⟩)).items.length ≤ 7 ∧
    ((buildGroupDigest "General News" 7 []
        (fun _ => .failure "no_transcript")
        (fun _ _ => ⟨"s", [], "w"⟩)).notShownCount : Int) = max 0 0 := by
  have h := digest_cap_invariant "General News" 7 []
    (fun _ => .failure "no_transcript") (fun _ _ => ⟨"s", [], "w"⟩)
  exact ⟨h.1, by simpa using h.2⟩

theorem filter_mapSet_hit (x : VideoRecord) :
    ∀ d : List VideoRecord,
      (d.map (fun w => if w.videoId = x.videoId then x else w)).filter
          (fun v => v.videoId = x.videoId)
        = (d.filter (fun v => v.videoId = x.videoId)).map (fun _ => x) := by
  intro d
  induction d with
  | nil => rfl
  | cons w t ih =>
    by_cases hw : w.videoId = x.videoId
    · simp only [List.map_cons, List.filter_cons, if_pos hw]
      simp [hw, ih]
    · simp only [List.map_cons, List.filter_cons, if_neg hw]
      simp [hw, ih]

theorem filter_mapSet_miss (x : VideoRecord) (id : String) (hx : x.videoId ≠ id) :
    ∀ d : List VideoRecord,
      (d.map (fun w => if w.videoId = x.videoId then x else w)).filter
          (fun v => v.videoId = id)
        = d.filter (fun v => v.videoId = id) := by
  intro d
  induction d with
  | nil => rfl
  | cons w t ih =>
    by_cases hw : w.videoId = x.videoId
    · have hwid : ¬ w.videoId = id := by rw [hw]; exact hx
      simp only [List.map_cons, List.filter_cons, if_pos hw]
      simp [hx, hwid, ih]
    · simp only [List.map_cons, List.filter_cons, if_neg hw]
      by_cases hw2 : w.videoId = id
      · simp [hw2, ih]
      · simp [hw2, ih]

theorem dedup_filter (l : List VideoRecord) (id : String) :
    (dedupByVideoId l).filter (fun v => v.videoId = id)
      = ((l.filter (fun v => v.videoId = id)).getLast?).toList := by
  induction l using List.reverseRecOn with
  | nil => rfl
  | append_singleton l x ih =>
    have hd : dedupByVideoId (l ++ [x]) = mapSet (dedupByVideoId l) x := by
      simp [dedupByVideoId, List.foldl_append]
    rw [hd]
    unfold mapSet
    by_cases hx : x.videoId = id
    · subst hx
      have hrhs : (((l ++ [x]).filter (fun v => v.videoId = x.videoId)).getLast?)
          = some x := by
        rw [List.filter_append]
        simp
      rw [hrhs]
      by_cases hany : (dedupByVideoId l).any (fun w => w.videoId = x.videoId)
      · rw [if_pos hany, filter_mapSet_hit x (dedupByVideoId l), ih]
        obtain ⟨w, hw, hwid⟩ := List.any_eq_true.mp hany
        have hne : (dedupByVideoId l).filter (fun v => v.videoId = x.videoId) ≠ [] := by
          intro hnil
          have : w ∈ (dedupByVideoId l).filter (fun v => v.videoId = x.videoId) :=
            List.mem_filter.mpr ⟨hw, hwid⟩
          rw [hnil] at this
          cases this
        rw [ih] at hne
        cases hlast : ((l.filter (fun v => v.videoId = x.videoId)).getLast?) with
        | none => rw [hlast] at hne; exact absurd rfl hne
        | some v => rfl
      · rw [if_neg hany, List.filter_append, ih]
        have hnil : (dedupByVideoId l).filter (fun v => v.videoId = x.videoId) = [] := by
          rw [List.filter_eq_nil_iff]
          intro a ha
          have := List.any_eq_false.mp (Bool.eq_false_iff.mpr hany) a ha
          simpa using this
        rw [ih] at hnil
        rw [hnil]
        simp
    · have hrhs : ((l ++ [x]).filter (fun v => v.videoId = id)).getLast?
          = ((l.filter (fun v => v.videoId = id)).getLast?) := by
        rw [List.filter_append]
        simp [hx]
      rw [hrhs]
      by_cases hany : (dedupByVideoId l).any (fun w => w.videoId = x.videoId)
      · rw [if_pos hany, filter_mapSet_miss x id hx (dedupByVideoId l), ih]
      · rw [if_neg hany, List.filter_append, ih]
        simp [hx]

/-- **C5.** For every finite sequence of records collected across a group's
channels and every video identifier, the deduplicated, recency-sorted output
contains exactly one record for that identifier iff the identifier occurs at
all — namely the last record inserted with that identifier (last write
wins) — and the output is sorted by publication timestamp descending. -/
theorem dedup_last_write_wins_sorted (l : List VideoRecord) (id : String) :
    (sortByRecency (dedupByVideoId l)).filter (fun v => v.videoId = id)
      = ((l.filter (fun v => v.videoId = id)).getLast?).toList ∧
    (sortByRecency (dedupByVideoId l)).Pairwise
      (fun a b => b.publishedAt ≤ a.publishedAt) := by
  constructor
  · have hp : (sortByRecency (dedupByVideoId l)).Perm (dedupByVideoId l) :=
      List.mergeSort_perm _ _
    have hf := hp.filter (fun v => decide (v.videoId = id))
    rw [dedup_filter l id] at hf
    cases hlast : ((l.filter (fun v => v.videoId = id)).getLast?) with
    | none =>
      rw [hlast] at hf
      exact List.perm_nil.mp hf
    | some v =>
      rw [hlast] at hf
      exact List.perm_singleton.mp hf
  · have htrans : ∀ a b c : VideoRecord,
        recencyLe a.publishedAt b.publishedAt = true →
        recencyLe b.publishedAt c.publishedAt = true →
        recencyLe a.publishedAt c.publishedAt = true := by
      intro a b c hab hbc
      simp only [recencyLe, decide_eq_true_eq] at *
      exact le_trans hbc hab
    have htotal : ∀ a b : VideoRecord,
        (recencyLe a.publishedAt b.publishedAt
          || recencyLe b.publishedAt a.publishedAt) = true := by
      intro a b
      simp only [recencyLe, Bool.or_eq_true, decide_eq_true_eq]
      exact (le_total b.publishedAt a.publishedAt)
    have hs := List.sorted_mergeSort htrans htotal (dedupByVideoId l)
    exact hs.imp (fun h => by simpa [recencyLe] using h)

theorem fetchGoAux_httpErr_retry (fb : FetchResult × List Nat)
    (o : Nat → AttemptOutcome) (j : Nat → Nat) (m b fuel attempt status : Nat)
    (bodyText : String) (ho : o attempt = .httpErr status bodyText)
    (hc : isTransientHttp status) (ha : attempt < m) :
    fetchGoAux fb o j m b (fuel + 1) attempt
      = ((fetchGoAux fb o j m b fuel (attempt + 1)).1,
         backoffDelay b attempt (j attempt)
           :: (fetchGoAux fb o j m b fuel (attempt + 1)).2) := by
  conv_lhs => unfold fetchGoAux
  rw [ho]
  simp only [if_pos (And.intro hc ha)]

theorem fetchGoAux_httpErr_stop (fb : FetchResult × List Nat)
    (o : Nat → AttemptOutcome) (j : Nat → Nat) (m b fuel attempt status : Nat)
    (bodyText : String) (ho : o attempt = .httpErr status bodyText)
    (hc : ¬(isTransientHttp status = true ∧ attempt < m)) :
    fetchGoAux fb o j m b (fuel + 1) attempt
      = (.failure (formatProviderError "scrapingdog" status bodyText), []) := by
  unfold fetchGoAux
  rw [ho]
  simp only [if_neg hc]

theorem fetchGoAux_badJson_retry (fb : FetchResult × List Nat)
    (o : Nat → AttemptOutcome) (j : Nat → Nat) (m b fuel attempt : Nat)
    (ho : o attempt = .okBadJson) (ha : attempt < m) :
    fetchGoAux fb o j m b (fuel + 1) attempt
      = ((fetchGoAux fb o j m b fuel (attempt + 1)).1,
         backoffDelay b attempt (j attempt)
           :: (fetchGoAux fb o j m b fuel (attempt + 1)).2) := by
  conv_lhs => unfold fetchGoAux
  rw [ho]
  simp only [if_pos ha]

theorem fetchGoAux_badJson_stop (fb : FetchResult × List Nat)
    (o : Nat → AttemptOutcome) (j : Nat → Nat) (m b fuel attempt : Nat)
    (ho : o attempt = .okBadJson) (ha : ¬ attempt < m) :
    fetchGoAux fb o j m b (fuel + 1) attempt
      = (.failure "scrapingdog_invalid_json", []) := by
  unfold fetchGoAux
  rw [ho]
  simp only [if_neg ha]

theorem fetchGoAux_ok (fb : FetchResult × List Nat)
    (o : Nat → AttemptOutcome) (j : Nat → Nat) (m b fuel attempt : Nat)
    (body : JsonBody) (ho : o attempt = .ok body) :
    fetchGoAux fb o j m b (fuel + 1) attempt = (handleParsedBody body, []) := by
  unfold fetchGoAux
  rw [ho]

theorem fetchGoAux_netErr_retry (fb : FetchResult × List Nat)
    (o : Nat → AttemptOutcome) (j : Nat → Nat) (m b fuel attempt : Nat)
    (msg : String) (ho : o attempt = .netErr msg) (ha : attempt < m) :
    fetchGoAux fb o j m b (fuel + 1) attempt
      = ((fetchGoAux fb o j m b fuel (attempt + 1)).1,
         backoffDelay b attempt (j attempt)
           :: (fetchGoAux fb o j m b fuel (attempt + 1)).2) := by
  conv_lhs => unfold fetchGoAux
  rw [ho]
  simp only [if_pos ha]

theorem fetchGoAux_netErr_stop (fb : FetchResult × List Nat)
    (o : Nat → AttemptOutcome) (j : Nat → Nat) (m b fuel attempt : Nat)
    (msg : String) (ho : o attempt = .netErr msg) (ha : ¬ attempt < m) :
    fetchGoAux fb o j m b (fuel + 1) attempt
      = (.failure ("scrapingdog_fetch_error:" ++ safeErrMsg msg), []) := by
  unfold fetchGoAux
  rw [ho]
  simp only [if_neg ha]

theorem fetchGoAux_sleep_trace (fb : FetchResult × List Nat)
    (o : Nat → AttemptOutcome) (j : Nat → Nat) (m b : Nat) :
    ∀ fuel attempt, attempt + fuel = m + 1 → 1 ≤ fuel →
      (fetchGoAux fb o j m b fuel attempt).2.length < fuel ∧
      ∀ i (hi : i < (fetchGoAux fb o j m b fuel attempt).2.length),
        (fetchGoAux fb o j m b fuel attempt).2.get ⟨i, hi⟩
          = backoffDelay b (attempt + i) (j (attempt + i)) := by
  intro fuel
  induction fuel with
  | zero => intro attempt _ hf; omega
  | succ f ih =>
    intro attempt hinv _
    have hcons :
        fetchGoAux fb o j m b (f + 1) attempt
          = ((fetchGoAux fb o j m b f (attempt + 1)).1,
             backoffDelay b attempt (j attempt)
               :: (fetchGoAux fb o j m b f (attempt + 1)).2) →
        1 ≤ f →
        (fetchGoAux fb o j m b (f + 1) attempt).2.length < f + 1 ∧
        ∀ i (hi : i < (fetchGoAux fb o j m b (f + 1) attempt).2.length),
          (fetchGoAux fb o j m b (f + 1) attempt).2.get ⟨i, hi⟩
            = backoffDelay b (attempt + i) (j (attempt + i)) := by
      intro heq hf1
      have hrec := ih (attempt + 1) (by omega) hf1
      rw [heq]
      constructor
      · simpa using hrec.1
      · intro i hi
        cases i with
        | zero => simp
        | succ k =>
          have hk : k < (fetchGoAux fb o j m b f (attempt + 1)).2.length := by
            simpa using hi
          have := hrec.2 k hk
          have harith : attempt + (k + 1) = attempt + 1 + k := by omega
          rw [harith]
          simpa using this
    have hnil :
        fetchGoAux fb o j m b (f + 1) attempt
          = ((fetchGoAux fb o j m b (f + 1) attempt).1, []) →
        (fetchGoAux fb o j m b (f + 1) attempt).2.length < f + 1 ∧
        ∀ i (hi : i < (fetchGoAux fb o j m b (f + 1) attempt).2.length),
          (fetchGoAux fb o j m b (f + 1) attempt).2.get ⟨i, hi⟩
            = backoffDelay b (attempt + i) (j (attempt + i)) := by
      intro heq
      have h2 : (fetchGoAux fb o j m b (f + 1) attempt).2 = [] :=
        congrArg Prod.snd heq
      rw [h2]
      refine ⟨by simp, ?_⟩
      intro i hi
      simp at hi
    cases ho : o attempt with
    | httpErr status bodyText =>
      by_cases hc : isTransientHttp status = true ∧ attempt < m
      · exact hcons (fetchGoAux_httpErr_retry fb o j m b f attempt status bodyText
          ho hc.1 hc.2) (by omega)
      · have := fetchGoAux_httpErr_stop fb o j m b f attempt status bodyText ho hc
        exact hnil (by rw [this])
    | okBadJson =>
      by_cases ha : attempt < m
      · exact hcons (fetchGoAux_badJson_retry fb o j m b f attempt ho ha) (by omega)
      · have := fetchGoAux_badJson_stop fb o j m b f attempt ho ha
        exact hnil (by rw [this])
    | ok body =>
      have := fetchGoAux_ok fb o j m b f attempt body ho
      exact hnil (by rw [this])
    | netErr msg =>
      by_cases ha : attempt < m
      · exact hcons (fetchGoAux_netErr_retry fb o j m b f attempt msg ho ha) (by omega)
      · have := fetchGoAux_netErr_stop fb o j m b f attempt msg ho ha
        exact hnil (by rw [this])

/-- **C6.** For every attempt number `n ≥ 1` and base delay, the backoff
delay before the next attempt lies in
`[min(baseDelayMs·2^(n−1), 8000), min(baseDelayMs·2^(n−1), 8000) + 250)`,
and a backoff sleep occurs only between attempts, never after the final
one: a run of the attempt loop sleeps strictly fewer than `maxAttempts`
times, the `i`-th slept delay (0-based, belonging to attempt `i + 1`)
obeying those bounds. -/
theorem backoff_delay_bounds (o : Nat → AttemptOutcome) (j : Nat → Nat)
    (m b : Nat) (hm : 1 ≤ m) (hj : ∀ n, j n < 250) :
    (∀ n jv, 1 ≤ n → jv < 250 →
      min (b * 2 ^ (n - 1)) 8000 ≤ backoffDelay b n jv ∧
      backoffDelay b n jv < min (b * 2 ^ (n - 1)) 8000 + 250) ∧
    (fetchGo o j m b m 1).2.length < m ∧
    ∀ i (hi : i < (fetchGo o j m b m 1).2.length),
      min (b * 2 ^ i) 8000 ≤ (fetchGo o j m b m 1).2.get ⟨i, hi⟩ ∧
      (fetchGo o j m b m 1).2.get ⟨i, hi⟩ < min (b * 2 ^ i) 8000 + 250 := by
  have h := fetchGoAux_sleep_trace (.failure "scrapingdog_unknown_error", [])
    o j m b m 1 (by omega) hm
  refine ⟨?_, h.1, ?_⟩
  · intro n jv _ hjv
    unfold backoffDelay
    omega
  · intro i hi
    have hv := h.2 i hi
    have hidx : (fetchGo o j m b m 1).2.get ⟨i, hi⟩
        = backoffDelay b (1 + i) (j (1 + i)) := hv
    rw [hidx]
    unfold backoffDelay
    have harith : 1 + i - 1 = i := by omega
    rw [harith]
    have := hj (1 + i)
    omega

/-- Witness for C6: three attempts against an upstream that always answers
503 sleep twice, with delays exactly `800` and `1600` (zero jitter). -/
theorem backoff_delay_bounds_witness :
    (fetchGo (fun _ => AttemptOutcome.httpErr 503 "") (fun _ => 0) 3 800 3 1).2.length
      < 3 ∧
    (fetchGo (fun _ => AttemptOutcome.httpErr 503 "") (fun _ => 0) 3 800 3 1).2
      = [800, 1600] := by
  refine ⟨(backoff_delay_bounds (fun _ => AttemptOutcome.httpErr 503 "")
    (fun _ => 0) 3 800 (by norm_num) (fun n => by norm_num)).2.1, ?_⟩
  rfl

/-- **C7.** When an attempt yields an HTTP success whose body is not
parseable JSON, the fetcher retries — one backoff sleep, then the next
attempt — if attempts remain, and otherwise returns
`Failure{scrapingdog_invalid_json}`. -/
theorem invalid_json_retry_policy (o : Nat → AttemptOutcome) (j : Nat → Nat)
    (m b fuel attempt : Nat) (ho : o attempt = .okBadJson) :
    (attempt < m →
      fetchGo o j m b (fuel + 1) attempt
        = ((fetchGo o j m b fuel (attempt + 1)).1,
           backoffDelay b attempt (j attempt)
             :: (fetchGo o j m b fuel (attempt + 1)).2)) ∧
    (¬ attempt < m →
      fetchGo o j m b (fuel + 1) attempt
        = (.failure "scrapingdog_invalid_json", [])) :=
  ⟨fun ha => fetchGoAux_badJson_retry _ o j m b fuel attempt ho ha,
   fun ha => fetchGoAux_badJson_stop _ o j m b fuel attempt ho ha⟩

/-- Witness for C7: with 2 total attempts and every body unparseable, the
first attempt sleeps once and the run ends in `scrapingdog_invalid_json`;
at the final attempt there is no further retry. -/
theorem invalid_json_retry_policy_witness :
    fetchGo (fun _ => AttemptOutcome.okBadJson) (fun _ => 0) 2 800 (1 + 1) 1
      = (.failure "scrapingdog_invalid_json", [800]) ∧
    fetchGo (fun _ => AttemptOutcome.okBadJson) (fun _ => 0) 2 800 (0 + 1) 2
      = (.failure "scrapingdog_invalid_json", []) := by
  have h1 := (invalid_json_retry_policy (fun _ => AttemptOutcome.okBadJson)
    (fun _ => 0) 2 800 1 1 rfl).1 (by norm_num)
  have h2 := (invalid_json_retry_policy (fun _ => AttemptOutcome.okBadJson)
    (fun _ => 0) 2 800 0 2 rfl).2 (by norm_num)
  exact ⟨h1.trans (by rfl), h2⟩

/-- **C9.** When the provider returns HTTP success with body
`{transcripts: ["..."]}` (a single free-text string, e.g. the
"This video has no transcripts" sentinel), the fetch result is
`Failure{no_transcript}` with no retry (no sleep, immediate return), and
the assembled item for that video is skipped with reason text exactly
`"This video has no transcript/captions available on YouTube."`. -/
theorem no_transcript_sentinel_skip (o : Nat → AttemptOutcome) (j : Nat → Nat)
    (m b fuel attempt : Nat) (s : String)
    (ho : o attempt = .ok (.transcripts [.str s]))
    (fetch : String → FetchResult) (summarize : VideoRecord → String → Summary)
    (v : VideoRecord) (hv : fetch v.videoId = .failure "no_transcript") :
    fetchGo o j m b (fuel + 1) attempt = (.failure "no_transcript", []) ∧
    processVideos fetch summarize [v]
      = ([], [skippedItem v
          "This video has no transcript/captions available on YouTube."]) := by
  constructor
  · unfold fetchGo
    rw [fetchGoAux_ok _ o j m b fuel attempt _ ho]
    rfl
  · unfold processVideos
    rw [hv]
    rfl

/-- Witness for C9: the sentinel body observed in production, driven through
both the fetch loop and the assembler at concrete inputs. -/
theorem no_transcript_sentinel_skip_witness :
    fetchGo (fun _ => AttemptOutcome.ok
        (.transcripts [.str "This video has no transcripts"])) (fun _ => 0)
        3 800 (2 + 1) 1
      = (.failure "no_transcript", []) ∧
    processVideos (fun _ => FetchResult.failure "no_transcript")
        (fun _ _ => ⟨"s", [], "w"⟩)
        [⟨"abc123", "Title", "https://example", "2026-01-01T00:00:00+00:00", "Ch"⟩]
      = ([], [skippedItem
          ⟨"abc123", "Title", "https://example", "2026-01-01T00:00:00+00:00", "Ch"⟩
          "This video has no transcript/captions available on YouTube."]) := by
  exact no_transcript_sentinel_skip
    (fun _ => AttemptOutcome.ok (.transcripts [.str "This video has no transcripts"]))
    (fun _ => 0) 3 800 2 1 "This video has no transcripts" rfl
    (fun _ => FetchResult.failure "no_transcript") (fun _ _ => ⟨"s", [], "w"⟩)
    ⟨"abc123", "Title", "https://example", "2026-01-01T00:00:00+00:00", "Ch"⟩ rfl

theorem fetchGoAux_fallback_irrelevant (fb1 fb2 : FetchResult × List Nat)
    (o : Nat → AttemptOutcome) (j : Nat → Nat) (m b : Nat) :
    ∀ fuel attempt, 1 ≤ fuel → attempt + fuel = m + 1 →
      fetchGoAux fb1 o j m b fuel attempt = fetchGoAux fb2 o j m b fuel attempt := by
  intro fuel
  induction fuel with
  | zero => intro attempt h; omega
  | succ f ih =>
    intro attempt _ hinv
    cases ho : o attempt with
    | httpErr status bodyText =>
      by_cases hc : isTransientHttp status = true ∧ attempt < m
      · rw [fetchGoAux_httpErr_retry fb1 o j m b f attempt status bodyText ho hc.1 hc.2,
            fetchGoAux_httpErr_retry fb2 o j m b f attempt status bodyText ho hc.1 hc.2,
            ih (attempt + 1) (by omega) (by omega)]
      · rw [fetchGoAux_httpErr_stop fb1 o j m b f attempt status bodyText ho hc,
            fetchGoAux_httpErr_stop fb2 o j m b f attempt status bodyText ho hc]
    | okBadJson =>
      by_cases ha : attempt < m
      · rw [fetchGoAux_badJson_retry fb1 o j m b f attempt ho ha,
            fetchGoAux_badJson_retry fb2 o j m b f attempt ho ha,
            ih (attempt + 1) (by omega) (by omega)]
      · rw [fetchGoAux_badJson_stop fb1 o j m b f attempt ho ha,
            fetchGoAux_badJson_stop fb2 o j m b f attempt ho ha]
    | ok body =>
      rw [fetchGoAux_ok fb1 o j m b f attempt body ho,
          fetchGoAux_ok fb2 o j m b f attempt body ho]
    | netErr msg =>
      by_cases ha : attempt < m
      · rw [fetchGoAux_netErr_retry fb1 o j m b f attempt msg ho ha,
            fetchGoAux_netErr_retry fb2 o j m b f attempt msg ho ha,
            ih (attempt + 1) (by omega) (by omega)]
      · rw [fetchGoAux_netErr_stop fb1 o j m b f attempt msg ho ha,
            fetchGoAux_netErr_stop fb2 o j m b f attempt msg ho ha]

theorem http_reason_ne_unknown (t : String) :
    "scrapingdog" ++ "_http_" ++ t ≠ "scrapingdog_unknown_error" := by
  intro h
  have h2 : "scrapingdog_http_" ++ t = "scrapingdog_unknown_error" :=
    Eq.trans (by rfl) h
  have hd := congrArg String.data h2
  rw [String.data_append] at hd
  have ht := congrArg (List.take 17) hd
  rw [List.take_append_of_le_length (by decide)] at ht
  exact absurd ht (by decide)

theorem fetch_error_reason_ne_unknown (t : String) :
    "scrapingdog_fetch_error:" ++ t ≠ "scrapingdog_unknown_error" := by
  intro h
  have hd := congrArg String.data h
  rw [String.data_append] at hd
  have ht := congrArg (List.take 17) hd
  rw [List.take_append_of_le_length (by decide)] at ht
  exact absurd ht (by decide)

theorem formatProviderError_ne_unknown (status : Nat) (bodyText : String) :
    formatProviderError "scrapingdog" status bodyText
      ≠ "scrapingdog_unknown_error" := by
  unfold formatProviderError
  split
  · exact http_reason_ne_unknown _
  · split
    · exact http_reason_ne_unknown _
    · exact http_reason_ne_unknown _

theorem handleParsedBody_cases (body : JsonBody) :
    handleParsedBody body = .failure "no_transcript" ∨
    handleParsedBody body = .failure "too_short" ∨
    ∃ a b c, handleParsedBody body = .success a b c := by
  cases body with
  | noField => exact Or.inl rfl
  | transcripts items =>
    cases items with
    | nil => exact Or.inl rfl
    | cons it rest =>
      cases it with
      | str s =>
        refine Or.inl ?_
        simp only [handleParsedBody]
        split
        · rfl
        · split
          · rfl
          · rfl
      | obj text lang =>
        simp only [handleParsedBody]
        split
        · exact Or.inl rfl
        · split
          · exact Or.inl rfl
          · by_cases hf : fullTextOf (TItem.obj text lang :: rest) = ""
                ∨ (fullTextOf (TItem.obj text lang :: rest)).length < 200
            · refine Or.inr (Or.inl ?_)
              show (if fullTextOf (TItem.obj text lang :: rest) = ""
                      ∨ (fullTextOf (TItem.obj text lang :: rest)).length < 200
                    then FetchResult.failure "too_short"
                    else FetchResult.success
                      (decodeHtmlEntities (fullTextOf (TItem.obj text lang :: rest)))
                      (TItem.obj text lang :: rest).length
                      (firstLang (TItem.obj text lang :: rest)))
                  = FetchResult.failure "too_short"
              rw [if_pos hf]
            · refine Or.inr (Or.inr
                ⟨decodeHtmlEntities (fullTextOf (TItem.obj text lang :: rest)),
                 (TItem.obj text lang :: rest).length,
                 firstLang (TItem.obj text lang :: rest), ?_⟩)
              show (if fullTextOf (TItem.obj text lang :: rest) = ""
                      ∨ (fullTextOf (TItem.obj text lang :: rest)).length < 200
                    then FetchResult.failure "too_short"
                    else FetchResult.success
                      (decodeHtmlEntities (fullTextOf (TItem.obj text lang :: rest)))
                      (TItem.obj text lang :: rest).length
                      (firstLang (TItem.obj text lang :: rest)))
                  = FetchResult.success
                      (decodeHtmlEntities (fullTextOf (TItem.obj text lang :: rest)))
                      (TItem.obj text lang :: rest).length
                      (firstLang (TItem.obj text lang :: rest))
              rw [if_neg hf]

theorem handleParsedBody_ne_unknown (body : JsonBody) :
    handleParsedBody body ≠ .failure "scrapingdog_unknown_error" := by
  rcases handleParsedBody_cases body with h | h | ⟨a, b, c, h⟩
  · rw [h]; decide
  · rw [h]; decide
  · rw [h]; simp

theorem fetchGo_ne_unknown (o : Nat → AttemptOutcome) (j : Nat → Nat) (m b : Nat) :
    ∀ fuel attempt, 1 ≤ fuel → attempt + fuel = m + 1 →
      (fetchGo o j m b fuel attempt).1 ≠ .failure "scrapingdog_unknown_error" := by
  intro fuel
  induction fuel with
  | zero => intro attempt h; omega
  | succ f ih =>
    intro attempt _ hinv
    unfold fetchGo
    cases ho : o attempt with
    | httpErr status bodyText =>
      by_cases hc : isTransientHttp status = true ∧ attempt < m
      · rw [fetchGoAux_httpErr_retry _ o j m b f attempt status bodyText ho hc.1 hc.2]
        exact ih (attempt + 1) (by omega) (by omega)
      · rw [fetchGoAux_httpErr_stop _ o j m b f attempt status bodyText ho hc]
        exact fun h =>
          formatProviderError_ne_unknown status bodyText (FetchResult.failure.inj h)
    | okBadJson =>
      by_cases ha : attempt < m
      · rw [fetchGoAux_badJson_retry _ o j m b f attempt ho ha]
        exact ih (attempt + 1) (by omega) (by omega)
      · rw [fetchGoAux_badJson_stop _ o j m b f attempt ho ha]
        decide
    | ok body =>
      rw [fetchGoAux_ok _ o j m b f attempt body ho]
      exact handleParsedBody_ne_unknown body
    | netErr msg =>
      by_cases ha : attempt < m
      · rw [fetchGoAux_netErr_retry _ o j m b f attempt msg ho ha]
        exact ih (attempt + 1) (by omega) (by omega)
      · rw [fetchGoAux_netErr_stop _ o j m b f attempt msg ho ha]
        exact fun h =>
          fetch_error_reason_ne_unknown _ (FetchResult.failure.inj h)

/-- **C10.** Whenever `maxAttempts ≥ 1`, every invocation of the attempt
loop returns from within it, so the trailing post-loop fallback is
unreachable: the loop's result does not depend on the fallback value at
all, and the returned result is never `Failure{scrapingdog_unknown_error}`. -/
theorem unknown_error_unreachable (o : Nat → AttemptOutcome) (j : Nat → Nat)
    (m b : Nat) (hm : 1 ≤ m) (fb1 fb2 : FetchResult × List Nat) :
    fetchGoAux fb1 o j m b m 1 = fetchGoAux fb2 o j m b m 1 ∧
    (fetchGo o j m b m 1).1 ≠ .failure "scrapingdog_unknown_error" :=
  ⟨fetchGoAux_fallback_irrelevant fb1 fb2 o j m b m 1 hm (by omega),
   fetchGo_ne_unknown o j m b m 1 hm (by omega)⟩

/-- Witness for C10: a one-attempt run against a body with no transcripts
field gives the same result under two different fallbacks and does not
yield the unknown-error reason. -/
theorem unknown_error_unreachable_witness :
    fetchGoAux (.failure "A", []) (fun _ => AttemptOutcome.ok .noField)
        (fun _ => 0) 1 800 1 1
      = fetchGoAux (.failure "B", []) (fun _ => AttemptOutcome.ok .noField)
          (fun _ => 0) 1 800 1 1 ∧
    (fetchGo (fun _ => AttemptOutcome.ok .noField) (fun _ => 0) 1 800 1 1).1
      ≠ .failure "scrapingdog_unknown_error" :=
  unknown_error_unreachable (fun _ => AttemptOutcome.ok .noField) (fun _ => 0)
    1 800 (by norm_num) (.failure "A", []) (.failure "B", [])

set_option maxRecDepth 100000 in
/-- Counterexample to C8 as stated: a transcripts array of 50 segment
objects each reading `"&amp;"` joins and whitespace-collapses to 299
characters, so the code returns success; but the cleaned text the success
carries — the result of all the listed operations including entity
decoding — is only 99 characters, under 200.  So "returns
`Failure{too_short}` exactly when the resulting cleaned text is under 200
characters" is false on this input: the code applies the 200-character
test before entity decoding, not after. -/
theorem too_short_before_decoding_counterexample :
    (decodeHtmlEntities
        (fullTextOf (List.replicate 50 (TItem.obj "&amp;" "")))).length < 200 ∧
    handleParsedBody (.transcripts (List.replicate 50 (TItem.obj "&amp;" "")))
      = .success
          (decodeHtmlEntities (fullTextOf (List.replicate 50 (TItem.obj "&amp;" ""))))
          50 none := by
  constructor
  · decide
  · decide

/-- **C8 (amended).** For every HTTP-success response whose transcripts
array is non-empty and consists of segment objects, the fetcher
concatenates segment texts in array order and collapses whitespace; it
returns `Failure{too_short}` exactly when that whitespace-collapsed
concatenation — measured before HTML-entity decoding — is under 200
characters, and otherwise returns success carrying the entity-decoded
cleaned text. -/
theorem transcript_cleanup_threshold (items : List TItem) (hne : items ≠ [])
    (hobj : ∀ it ∈ items, ∃ text lang, it = TItem.obj text lang) :
    (handleParsedBody (.transcripts items) = .failure "too_short"
      ↔ (fullTextOf items).length < 200) ∧
    (200 ≤ (fullTextOf items).length →
      handleParsedBody (.transcripts items)
        = .success (decodeHtmlEntities (fullTextOf items)) items.length
            (firstLang items)) := by
  cases items with
  | nil => exact absurd rfl hne
  | cons v rest =>
    obtain ⟨text, lang, hv⟩ := hobj v (List.mem_cons_self v rest)
    subst hv
    have hred : handleParsedBody (.transcripts (TItem.obj text lang :: rest))
        = if fullTextOf (TItem.obj text lang :: rest) = ""
             ∨ (fullTextOf (TItem.obj text lang :: rest)).length < 200
          then FetchResult.failure "too_short"
          else FetchResult.success
            (decodeHtmlEntities (fullTextOf (TItem.obj text lang :: rest)))
            (TItem.obj text lang :: rest).length
            (firstLang (TItem.obj text lang :: rest)) := by
      simp only [handleParsedBody]
      have h1 : ¬((TItem.obj text lang :: rest).length = 0) := by simp
      rw [if_neg h1]
      have h2 : ¬((decide ((TItem.obj text lang :: rest).length = 1)
          && isStrItem (TItem.obj text lang :: rest).head?) = true) := by
        simp [isStrItem]
      rw [if_neg h2]
      rfl
    rw [hred]
    constructor
    · constructor
      · intro h
        by_cases hc : fullTextOf (TItem.obj text lang :: rest) = ""
            ∨ (fullTextOf (TItem.obj text lang :: rest)).length < 200
        · rcases hc with he | hl
          · rw [he]; decide
          · exact hl
        · rw [if_neg hc] at h
          exact absurd h (by simp)
      · intro hl
        rw [if_pos (Or.inr hl)]
    · intro hge
      have hc : ¬(fullTextOf (TItem.obj text lang :: rest) = ""
          ∨ (fullTextOf (TItem.obj text lang :: rest)).length < 200) := by
        rintro (he | hl)
        · rw [he] at hge
          revert hge
          decide
        · omega
      rw [if_neg hc]

/-- Witness for the amended C8: a single 5-character segment is judged too
short. -/
theorem transcript_cleanup_threshold_witness :
    handleParsedBody (.transcripts [TItem.obj "short" ""])
      = .failure "too_short" := by
  have h := transcript_cleanup_threshold [TItem.obj "short" ""] (by simp)
    (fun it hit => by
      rw [List.mem_singleton] at hit
      exact ⟨"short", "", hit⟩)
  exact h.1.mpr (by decide)
